import Mathlib

/-!
Verification of the `backups` repository: a shallow embedding of
`backups.py` / `main.py` (a backup-creation, retention and upload
orchestrator) together with proofs about its retention and error
handling behaviour.

External effects (subprocess exits, directory listings, Google Drive
API results, per-delete success) are supplied by an explicit
environment `Env`; each modelled function returns the list of
externally visible events it performs together with its Python result
(`Except` models raised exceptions).
-/

namespace Backups

/-! ## Stable descending insertion sort

Python's `list.sort(key=k, reverse=True)` is a stable sort: elements are
ordered by strictly greater key, and elements with equal keys keep their
original relative order.  `sortDescBy` reproduces exactly that.
-/

/-- Insert `x` into `l`, skipping elements with strictly greater key, so
that `x` lands in front of every element whose key is less than or equal
to its own (`x` comes earlier in the original list than everything in `l`). -/
def insertDesc {α β : Type} [LinearOrder β] (key : α → β) (x : α) : List α → List α
  | [] => [x]
  | y :: ys => if key x < key y then y :: insertDesc key x ys else x :: y :: ys

/-- Stable sort by strictly decreasing key, equal keys keep list order. -/
def sortDescBy {α β : Type} [LinearOrder β] (key : α → β) : List α → List α
  | [] => []
  | x :: xs => insertDesc key x (sortDescBy key xs)

/-! ## Data model

`LFile` is a local file as seen by `os.listdir` (basename plus the
creation time `os.path.getctime` reports for it).  `RObj` is a Google
Drive object as returned by `files().list` (`id`, `name`,
`createdTime`; `createdTime` is an RFC 3339 string and is compared as a
string by the code, which is what `sort(key=lambda x: x["createdTime"])`
does).
-/

structure LFile where
  name : String
  ctime : Nat
deriving DecidableEq

structure RObj where
  id : String
  name : String
  createdTime : String
deriving DecidableEq

/-- Externally visible events performed by the program: spawned
subprocesses (`subprocess.run` argument vectors), Drive upload attempts
(`files().create`), Drive folder listings (`files().list`) and Drive
deletions (`files().delete`). -/
inductive Ev where
  | spawn (cmd : List String)
  | uploadAttempt (path : String) (folderId : String)
  | driveList (folderId : String)
  | driveDelete (fileId : String)
deriving DecidableEq

/-- Python exceptions raised by the code paths we model. -/
inductive BErr where
  | cmdFailed (exitCode : Nat)
  | fileNotFound (msg : String)
  | valueError (msg : String)
  | credFailed
  | uploadFailed
deriving DecidableEq

instance {ε α : Type} [DecidableEq ε] [DecidableEq α] : DecidableEq (Except ε α) := fun a b =>
  match a, b with
  | Except.ok x, Except.ok y => decidable_of_iff (x = y) (by simp)
  | Except.ok _, Except.error _ => isFalse (fun h => Except.noConfusion h)
  | Except.error _, Except.ok _ => isFalse (fun h => Except.noConfusion h)
  | Except.error e, Except.error f => decidable_of_iff (e = f) (by simp)

/-- The branch `clean_drive_folder` finishes in: the outer exception
handler swallowed a listing failure, the listing was empty (the code
logs and returns), or the folder was cleaned keeping `kept`.  The
function never raises. -/
inductive CleanOutcome where
  | listFailed
  | noFiles
  | cleaned (kept : RObj)
deriving DecidableEq

/-- Results of all external effects, fixed up front: exit codes of the
spawned commands, directory listings (in `os.listdir` order, names with
their ctimes), whether each `sudo rm` succeeds, whether credential
loading / upload / remote listing succeed, the remote listings per
folder id (in the order the Drive API returns them) and whether each
remote delete succeeds. -/
structure Env where
  gitlabCmdExit : Nat
  gitlabListing : List LFile
  chmodDirExit : Nat
  timestamp : String
  dirExists : String → Bool
  tarExit : Nat
  chmodFileExit : Nat
  dirListing : String → List LFile
  rmOk : String → Bool
  credOk : Bool
  uploadOk : Bool
  uploadedId : String
  listOk : Bool
  remoteListing : String → List RObj
  driveDeleteOk : String → Bool

/-! ## Constants from the source -/

def gitlabBackupDir : String := "/var/opt/gitlab/backups"

def gitlabFolderId : String := "1SNuXyvSqpff3_U2uzDM9ZfVicwMfr8eV"

def jenkinsFolderId : String := "1roM3QbZJs2Ck2eQr3t7Zh5zSWd3Wfs5d"

def gitlabCreateCmd : List String := ["sudo", "gitlab-backup", "create"]

def jenkinsDirectories : List String := ["/var/lib/jenkins"]

/-- Python `str.startswith`. -/
def pyStartsWith (s p : String) : Bool := p.data.isPrefixOf s.data

/-- Python `str.endswith`. -/
def pyEndsWith (s p : String) : Bool := p.data.isSuffixOf s.data

/-! ## `clean_drive_folder` -/

/-- The files `drive_service.files().list(...)` returns for the folder. -/
def remoteFiles (env : Env) (folderId : String) : List RObj := env.remoteListing folderId

/-- The listing after `files.sort(key=lambda x: x["createdTime"], reverse=True)`
(stable, newest first). -/
def remoteSorted (env : Env) (folderId : String) : List RObj :=
  sortDescBy (fun f => f.createdTime) (remoteFiles env folderId)

/-- `BackupManager.clean_drive_folder`.  Lists the folder; on a listing
failure the outer handler logs and returns.  If the listing is empty the
code returns early (`remoteSorted` is empty exactly when the raw listing
is, because the sort preserves length, so matching on the sorted list
mirrors the code's `if not files:` test).  Otherwise it issues one
delete per file other than the first of the sorted list; each delete
failure is caught and logged, so the delete calls are always all
issued. -/
def clean_drive_folder (env : Env) (folderId : String) : List Ev × CleanOutcome :=
  if env.listOk then
    match remoteSorted env folderId with
    | [] => ([Ev.driveList folderId], CleanOutcome.noFiles)
    | kept :: olds =>
        (Ev.driveList folderId :: olds.map (fun f => Ev.driveDelete f.id),
         CleanOutcome.cleaned kept)
  else ([Ev.driveList folderId], CleanOutcome.listFailed)

/-! ## `upload_to_google_drive` -/

/-- `BackupManager.upload_to_google_drive`.  Loading `cred.json` and
building the service happen before the upload; any exception there or in
the upload is logged and re-raised.  After a successful upload the code
sleeps and then calls `clean_drive_folder`, which never raises. -/
def upload_to_google_drive (env : Env) (filePath folderId : String) :
    List Ev × Except BErr String :=
  if env.credOk then
    if env.uploadOk then
      (Ev.uploadAttempt filePath folderId :: (clean_drive_folder env folderId).1,
       Except.ok env.uploadedId)
    else ([Ev.uploadAttempt filePath folderId], Except.error BErr.uploadFailed)
  else ([], Except.error BErr.credFailed)

/-! ## `create_gitlab_backup` -/

def gitlabPath (f : LFile) : String := gitlabBackupDir ++ "/" ++ f.name

/-- The files of `/var/opt/gitlab/backups` ending in `_gitlab_backup.tar`. -/
def gitlabCandidates (env : Env) : List LFile :=
  env.gitlabListing.filter (fun f => pyEndsWith f.name "_gitlab_backup.tar")

/-- The candidates after `backups.sort(key=os.path.getctime, reverse=True)`. -/
def gitlabSorted (env : Env) : List LFile :=
  sortDescBy (fun f => f.ctime) (gitlabCandidates env)

/-- `BackupManager.create_gitlab_backup`.  Runs `sudo gitlab-backup
create` (non-zero exit raises `CalledProcessError`, logged and
re-raised), lists the matching backups (raising `FileNotFoundError`
when there are none; the sorted list is empty exactly when the
candidate list is), removes every backup but the newest (each `sudo rm`
failure is caught and logged), then uploads the newest and returns its
path. -/
def create_gitlab_backup (env : Env) : List Ev × Except BErr String :=
  if env.gitlabCmdExit = 0 then
    match gitlabSorted env with
    | [] =>
        ([Ev.spawn gitlabCreateCmd],
         Except.error (BErr.fileNotFound "No GitLab backup files found after backup creation"))
    | latest :: olds =>
        let rmEvs := olds.map (fun b => Ev.spawn ["sudo", "rm", gitlabPath b])
        let up := upload_to_google_drive env (gitlabPath latest) gitlabFolderId
        (Ev.spawn gitlabCreateCmd :: (rmEvs ++ up.1),
         match up.2 with
         | Except.ok _ => Except.ok (gitlabPath latest)
         | Except.error e => Except.error e)
  else ([Ev.spawn gitlabCreateCmd], Except.error (BErr.cmdFailed env.gitlabCmdExit))

/-! ## `create_directory_backup` -/

def backupDirFor (backupName : String) : String := "/var/backups/" ++ backupName

/-- The deterministic archive path
`/var/backups/<name>/<name>_backup_<timestamp>.tar.gz`. -/
def backupFileFor (env : Env) (backupName : String) : String :=
  backupDirFor backupName ++ "/" ++ backupName ++ "_backup_" ++ env.timestamp ++ ".tar.gz"

def dirPath (backupName : String) (f : LFile) : String :=
  backupDirFor backupName ++ "/" ++ f.name

/-- The files of the job's backup directory matching
`f.startswith(f"<name>_backup_") and f.endswith(".tar.gz")`. -/
def dirCandidates (env : Env) (backupName : String) : List LFile :=
  (env.dirListing backupName).filter
    (fun f => pyStartsWith f.name (backupName ++ "_backup_") && pyEndsWith f.name ".tar.gz")

/-- The candidates after `backups.sort(key=os.path.getctime, reverse=True)`. -/
def dirSorted (env : Env) (backupName : String) : List LFile :=
  sortDescBy (fun f => f.ctime) (dirCandidates env backupName)

def chmodDirCmd (backupName : String) : List String :=
  ["sudo", "chmod", "755", backupDirFor backupName]

def tarCmd (env : Env) (backupName : String) (existingDirs : List String) : List String :=
  ["sudo", "tar", "-czf", backupFileFor env backupName] ++ existingDirs

def chmodFileCmd (env : Env) (backupName : String) : List String :=
  ["sudo", "chmod", "644", backupFileFor env backupName]

/-- `BackupManager.create_directory_backup`.  In source order:
`os.makedirs` (assumed to succeed), `sudo chmod 755` on the backup
directory (a spawned subprocess, raising on non-zero exit), the
timestamped target path, the filter of `directories` by
`os.path.exists` with `FileNotFoundError` when none remain, `sudo tar`
over the surviving directories, `sudo chmod 644` on the archive, the
pruning pass over the matching files of the (post-archive) directory
listing (removing all but the newest; each `sudo rm` failure caught and
logged), then the upload; returns the archive path. -/
def create_directory_backup (env : Env) (backupName : String) (directories : List String) :
    List Ev × Except BErr String :=
  if env.chmodDirExit = 0 then
    match directories.filter env.dirExists with
    | [] =>
        ([Ev.spawn (chmodDirCmd backupName)],
         Except.error (BErr.fileNotFound
           ("No valid directories found for " ++ backupName ++ " backup.")))
    | d :: ds =>
        if env.tarExit = 0 then
          if env.chmodFileExit = 0 then
            let rmEvs := (dirSorted env backupName).tail.map
              (fun b => Ev.spawn ["sudo", "rm", dirPath backupName b])
            let up := upload_to_google_drive env (backupFileFor env backupName) jenkinsFolderId
            ([Ev.spawn (chmodDirCmd backupName), Ev.spawn (tarCmd env backupName (d :: ds)),
              Ev.spawn (chmodFileCmd env backupName)] ++ rmEvs ++ up.1,
             match up.2 with
             | Except.ok _ => Except.ok (backupFileFor env backupName)
             | Except.error e => Except.error e)
          else
            ([Ev.spawn (chmodDirCmd backupName), Ev.spawn (tarCmd env backupName (d :: ds)),
              Ev.spawn (chmodFileCmd env backupName)],
             Except.error (BErr.cmdFailed env.chmodFileExit))
        else
          ([Ev.spawn (chmodDirCmd backupName), Ev.spawn (tarCmd env backupName (d :: ds))],
           Except.error (BErr.cmdFailed env.tarExit))
  else ([Ev.spawn (chmodDirCmd backupName)], Except.error (BErr.cmdFailed env.chmodDirExit))

/-! ## `run_backup` and `main` -/

/-- `BackupManager.run_backup`.  Dispatches on the method string; the
`except` clause logs and then re-raises, so every error propagates to
the caller unchanged. -/
def run_backup (env : Env) (backupName method : String) (directories : Option (List String)) :
    List Ev × Except BErr Unit :=
  if method = "gitlab" then
    let r := create_gitlab_backup env
    (r.1,
     match r.2 with
     | Except.ok _ => Except.ok ()
     | Except.error e => Except.error e)
  else if method = "directory" then
    match directories with
    | none => ([], Except.error (BErr.valueError "No directories provided for directory backup."))
    | some [] =>
        ([], Except.error (BErr.valueError "No directories provided for directory backup."))
    | some (d :: ds) =>
        let r := create_directory_backup env backupName (d :: ds)
        (r.1,
         match r.2 with
         | Except.ok _ => Except.ok ()
         | Except.error e => Except.error e)
  else ([], Except.error (BErr.valueError "Invalid backup method. Use 'gitlab' or 'directory'."))

/-- `main.main`: runs the GitLab job, then the Jenkins job.  There is no
exception handling here, so an error raised by the first
`run_backup` call propagates and the second call never happens. -/
def main (env : Env) : List Ev × Except BErr Unit :=
  let g := run_backup env "gitlab" "gitlab" none
  match g.2 with
  | Except.error e => (g.1, Except.error e)
  | Except.ok _ =>
      let j := run_backup env "jenkins" "directory" (some jenkinsDirectories)
      (g.1 ++ j.1, j.2)

/-! ## Derived state

The contents of each storage domain after the pruning passes, implied by
the delete calls the code issues together with which of them succeed:
a file disappears exactly when it was a delete target and its delete
succeeded.
-/

/-- Local GitLab backup directory contents after the pruning pass of
`create_gitlab_backup`. -/
def localAfterGitlab (env : Env) : List LFile :=
  env.gitlabListing.filter
    (fun f => !(decide (f ∈ (gitlabSorted env).tail) && env.rmOk (gitlabPath f)))

/-- Local directory-job backup directory contents after the pruning pass
of `create_directory_backup`. -/
def localAfterDir (env : Env) (backupName : String) : List LFile :=
  (env.dirListing backupName).filter
    (fun f => !(decide (f ∈ (dirSorted env backupName).tail) && env.rmOk (dirPath backupName f)))

/-- The objects `clean_drive_folder` issues delete calls for. -/
def remoteDeleteTargets (env : Env) (folderId : String) : List RObj :=
  if env.listOk then (remoteSorted env folderId).tail else []

/-- Remote folder contents after `clean_drive_folder`. -/
def remoteAfterClean (env : Env) (folderId : String) : List RObj :=
  (remoteFiles env folderId).filter
    (fun f => !(decide (f ∈ remoteDeleteTargets env folderId) && env.driveDeleteOk f.id))

/-! ## The timestamp format `%Y-%m-%d_%H-%M-%S`

`datetime.now().strftime("%Y-%m-%d_%H-%M-%S")` prints each field
zero-padded in decimal (the year to four digits for years 1000-9999,
the rest to two) separated by literal characters.  Python compares the
resulting filenames/strings by code point, so we model the formatted
string as its list of character codes (`45` is the hyphen, `95` the
underscore, `48` the zero digit) and string comparison as the
lexicographic order `lexLtB` on those code lists.
-/

/-- Lexicographic strict order on code-point lists: Python `s1 < s2`. -/
def lexLtB : List Nat → List Nat → Bool
  | [], [] => false
  | [], _ :: _ => true
  | _ :: _, [] => false
  | a :: as, b :: bs => if a < b then true else if b < a then false else lexLtB as bs

/-- Codes of a two-digit zero-padded decimal field (`%m`, `%d`, `%H`,
`%M`, `%S`). -/
def pad2 (n : Nat) : List Nat := [48 + n / 10 % 10, 48 + n % 10]

/-- Codes of the four digits `%Y` prints for a four-digit year. -/
def pad4 (n : Nat) : List Nat :=
  [48 + n / 1000 % 10, 48 + n / 100 % 10, 48 + n / 10 % 10, 48 + n % 10]

/-- A `datetime` value, restricted to the fields the format prints. -/
structure DT where
  year : Nat
  month : Nat
  day : Nat
  hour : Nat
  minute : Nat
  second : Nat
deriving DecidableEq

/-- Field ranges of a real `datetime` with a four-digit year. -/
def DT.Valid (t : DT) : Prop :=
  1000 ≤ t.year ∧ t.year ≤ 9999 ∧ 1 ≤ t.month ∧ t.month ≤ 12 ∧ 1 ≤ t.day ∧ t.day ≤ 31 ∧
    t.hour ≤ 23 ∧ t.minute ≤ 59 ∧ t.second ≤ 59

instance (t : DT) : Decidable t.Valid := by
  unfold DT.Valid
  infer_instance

/-- The code points of `t.strftime("%Y-%m-%d_%H-%M-%S")`. -/
def fmtCodes (t : DT) : List Nat :=
  pad4 t.year ++ 45 :: (pad2 t.month ++ 45 :: (pad2 t.day ++ 95 ::
    (pad2 t.hour ++ 45 :: (pad2 t.minute ++ 45 :: pad2 t.second))))

/-- Chronological strict order on datetimes: lexicographic on the field
tuple (year, month, day, hour, minute, second). -/
def chronLtB (t1 t2 : DT) : Bool :=
  decide (t1.year < t2.year) || (decide (t1.year = t2.year) &&
  (decide (t1.month < t2.month) || (decide (t1.month = t2.month) &&
  (decide (t1.day < t2.day) || (decide (t1.day = t2.day) &&
  (decide (t1.hour < t2.hour) || (decide (t1.hour = t2.hour) &&
  (decide (t1.minute < t2.minute) || (decide (t1.minute = t2.minute) &&
  decide (t1.second < t2.second))))))))))

/-! ## Spec-side definition for comparison

The spec describes local retention as picking the file with the maximum
creation timestamp, breaking timestamp ties by lexical path order with
the lexically-greatest path winning.  `specLocalWinner` renders those
words directly, to be compared with what the code computes.
-/

/-- Python string comparison `s < t`: lexicographic on code points. -/
def pyStrLt (s t : String) : Bool :=
  lexLtB (s.data.map (fun c => c.toNat)) (t.data.map (fun c => c.toNat))

/-- Written from the spec's words: `f` beats `g` when its creation time
is strictly larger, or on a timestamp tie when its (joined) path is
lexically greater. -/
def specBetter (dir : String) (f g : LFile) : Bool :=
  decide (g.ctime < f.ctime) ||
    (decide (f.ctime = g.ctime) && pyStrLt (dir ++ "/" ++ g.name) (dir ++ "/" ++ f.name))

/-- Written from the spec's words: the winner local retention is
claimed to select among the matching files. -/
def specLocalWinner (dir : String) : List LFile → Option LFile
  | [] => none
  | f :: fs =>
      match specLocalWinner dir fs with
      | none => some f
      | some g => if specBetter dir f g then some f else some g

/-! ## Concrete environments for witnesses and counterexamples -/

/-- An environment in which every external step succeeds: the GitLab
command exits 0 and its directory holds two matching backups (ctimes 2
and 1), the Jenkins directory holds two matching archives (ctimes 9 and
4) of which the ctime-9 one is the archive this run just created, the
Jenkins remote folder holds two objects with distinct ids and created
times, and every delete succeeds. -/
def envOk : Env :=
  { gitlabCmdExit := 0
    gitlabListing := [⟨"a_gitlab_backup.tar", 2⟩, ⟨"b_gitlab_backup.tar", 1⟩]
    chmodDirExit := 0
    timestamp := "2024-03-05_10-20-30"
    dirExists := fun _ => true
    tarExit := 0
    chmodFileExit := 0
    dirListing := fun _ =>
      [⟨"jenkins_backup_2024-03-05_10-20-30.tar.gz", 9⟩,
       ⟨"jenkins_backup_2024-03-04_10-20-30.tar.gz", 4⟩]
    rmOk := fun _ => true
    credOk := true
    uploadOk := true
    uploadedId := "uploaded-id"
    listOk := true
    remoteListing := fun fid =>
      if fid = jenkinsFolderId then
        [⟨"r1", "jenkins_backup_2024-03-05_10-20-30.tar.gz", "2024-03-05T10:20:35.000Z"⟩,
         ⟨"r0", "jenkins_backup_2024-03-04_10-20-30.tar.gz", "2024-03-04T10:20:35.000Z"⟩]
      else []
    driveDeleteOk := fun _ => true }

/-- Same as `envOk` but the external GitLab backup command exits 1. -/
def envFail : Env := { envOk with gitlabCmdExit := 1 }

/-- Same as `envOk` but the two GitLab backups have equal ctimes, with
the lexically smaller name listed first. -/
def envTie : Env :=
  { envOk with gitlabListing := [⟨"a_gitlab_backup.tar", 5⟩, ⟨"b_gitlab_backup.tar", 5⟩] }

/-- Same as `envOk` but the Drive upload call fails. -/
def envNoUpload : Env := { envOk with uploadOk := false }

/-- Same as `envOk` but no configured source directory exists. -/
def envNoSrc : Env := { envOk with dirExists := fun _ => false }

/-! ## Lemmas about the stable descending sort -/

theorem insertDesc_perm {α β : Type} [LinearOrder β] (key : α → β) (x : α) (l : List α) :
    (insertDesc key x l).Perm (x :: l) := by
  induction l with
  | nil => simp [insertDesc]
  | cons y ys ih =>
    simp only [insertDesc]
    split
    · exact (ih.cons y).trans (List.Perm.swap x y ys)
    · exact List.Perm.refl _

theorem sortDescBy_perm {α β : Type} [LinearOrder β] (key : α → β) (l : List α) :
    (sortDescBy key l).Perm l := by
  induction l with
  | nil => simp [sortDescBy]
  | cons x xs ih =>
    exact (insertDesc_perm key x (sortDescBy key xs)).trans (ih.cons x)

theorem sortDescBy_length {α β : Type} [LinearOrder β] (key : α → β) (l : List α) :
    (sortDescBy key l).length = l.length :=
  (sortDescBy_perm key l).length_eq

theorem sortDescBy_mem {α β : Type} [LinearOrder β] (key : α → β) (l : List α) (a : α) :
    a ∈ sortDescBy key l ↔ a ∈ l :=
  (sortDescBy_perm key l).mem_iff

theorem insertDesc_pairwise {α β : Type} [LinearOrder β] (key : α → β) (x : α) (l : List α)
    (hl : l.Pairwise (fun a b => key b ≤ key a)) :
    (insertDesc key x l).Pairwise (fun a b => key b ≤ key a) := by
  induction l with
  | nil => simp [insertDesc]
  | cons y ys ih =>
    rcases List.pairwise_cons.mp hl with ⟨hy, hys⟩
    simp only [insertDesc]
    split
    · rename_i hxy
      refine List.pairwise_cons.mpr ⟨?_, ih hys⟩
      intro z hz
      rcases List.mem_cons.mp ((insertDesc_perm key x ys).mem_iff.mp hz) with hzx | hzys
      · exact hzx ▸ le_of_lt hxy
      · exact hy z hzys
    · rename_i hxy
      push_neg at hxy
      refine List.pairwise_cons.mpr ⟨?_, hl⟩
      intro z hz
      rcases List.mem_cons.mp hz with hzy | hzys
      · exact hzy ▸ hxy
      · exact le_trans (hy z hzys) hxy

theorem sortDescBy_pairwise {α β : Type} [LinearOrder β] (key : α → β) (l : List α) :
    (sortDescBy key l).Pairwise (fun a b => key b ≤ key a) := by
  induction l with
  | nil => simp [sortDescBy]
  | cons x xs ih => exact insertDesc_pairwise key x _ ih

/-- Every element of the input list has key at most the key of the head of
the descending sort. -/
theorem sortDescBy_head_max {α β : Type} [LinearOrder β] (key : α → β) (l : List α)
    (h : α) (t : List α) (hs : sortDescBy key l = h :: t) :
    ∀ a ∈ l, key a ≤ key h := by
  intro a ha
  have hmem : a ∈ h :: t := hs ▸ (sortDescBy_perm key l).mem_iff.mpr ha
  rcases List.mem_cons.mp hmem with hah | hat
  · exact hah ▸ le_refl _
  · have hp := sortDescBy_pairwise key l
    rw [hs] at hp
    exact (List.pairwise_cons.mp hp).1 a hat

/-- Stability: filtering the sorted list down to any single key value
gives back exactly the same-key elements of the input, in input order. -/
theorem filter_insertDesc {α β : Type} [LinearOrder β] [DecidableEq β] (key : α → β)
    (x : α) (l : List α) (k : β) :
    (insertDesc key x l).filter (fun a => decide (key a = k)) =
      if key x = k then x :: l.filter (fun a => decide (key a = k))
      else l.filter (fun a => decide (key a = k)) := by
  induction l with
  | nil =>
    by_cases hk : key x = k <;> simp [insertDesc, List.filter, hk]
  | cons y ys ih =>
    simp only [insertDesc]
    split
    · rename_i hxy
      by_cases hk : key x = k
      · have hyk : ¬ key y = k := by
          intro hy
          rw [hk] at hxy
          rw [hy] at hxy
          exact lt_irrefl k hxy
        simp [List.filter_cons, hyk, ih, hk]
      · simp [List.filter_cons, ih, hk]
    · by_cases hk : key x = k <;> simp [List.filter_cons, hk]

theorem sortDescBy_filter {α β : Type} [LinearOrder β] [DecidableEq β] (key : α → β)
    (l : List α) (k : β) :
    (sortDescBy key l).filter (fun a => decide (key a = k)) =
      l.filter (fun a => decide (key a = k)) := by
  induction l with
  | nil => simp [sortDescBy]
  | cons x xs ih =>
    simp only [sortDescBy]
    rw [filter_insertDesc, ih]
    by_cases hk : key x = k <;> simp [List.filter_cons, hk]

/-- The head of the stable descending sort is the first element of the
input list whose key is maximal (ties are broken by input order). -/
theorem sortDescBy_head_first {α β : Type} [LinearOrder β] [DecidableEq β] (key : α → β)
    (l : List α) (h : α) (t : List α) (hs : sortDescBy key l = h :: t) :
    (l.filter (fun a => decide (key a = key h))).head? = some h := by
  have hstab := sortDescBy_filter key l (key h)
  rw [hs] at hstab
  rw [← hstab]
  simp [List.filter_cons]

/-- If `l` is duplicate-free and a permutation of `h :: t`, filtering `l`
down to the elements outside `t` leaves exactly `h`. -/
theorem filter_not_mem_eq_singleton {α : Type} [DecidableEq α] (l : List α) (h : α)
    (t : List α) (hperm : l.Perm (h :: t)) (hnd : l.Nodup) :
    l.filter (fun a => !decide (a ∈ t)) = [h] := by
  have hndht : (h :: t).Nodup := hperm.nodup_iff.mp hnd
  have hht : h ∉ t := (List.nodup_cons.mp hndht).1
  have hmem : h ∈ l := hperm.mem_iff.mpr (List.mem_cons_self h t)
  have hkey : ∀ a ∈ l, (!decide (a ∈ t)) = true ↔ a = h := by
    intro a ha
    rcases List.mem_cons.mp (hperm.mem_iff.mp ha) with hah | hat
    · simp [hah, hht]
    · simp [hat]
      intro hae
      exact absurd hat (hae ▸ hht)
  clear hperm hndht hht
  induction l with
  | nil => cases hmem
  | cons x xs ih =>
    rcases List.nodup_cons.mp hnd with ⟨hx, hxs⟩
    by_cases hxh : x = h
    · subst hxh
      have hcond : (!decide (x ∈ t)) = true := (hkey x (List.mem_cons_self x xs)).mpr rfl
      have hrest : xs.filter (fun a => !decide (a ∈ t)) = [] := by
        rw [List.filter_eq_nil_iff]
        intro a ha
        intro hpa
        exact hx ((hkey a (List.mem_cons_of_mem x ha)).mp hpa ▸ ha)
      simp [List.filter_cons, hcond, hrest]
    · have hxmem : x ∈ x :: xs := List.mem_cons_self x xs
      have hpx : (!decide (x ∈ t)) = false := by
        rcases Bool.eq_false_or_eq_true (!decide (x ∈ t)) with ht | hf
        · exact absurd ((hkey x hxmem).mp ht) hxh
        · exact hf
      rw [List.filter_cons]
      simp only [hpx, Bool.false_eq_true, if_false]
      have hhxs : h ∈ xs := by
        rcases List.mem_cons.mp hmem with hh | hh
        · exact absurd hh.symm hxh
        · exact hh
      exact ih hxs hhxs (fun a ha => hkey a (List.mem_cons_of_mem x ha))

/-! ## Lemmas about the timestamp format -/

theorem lexLtB_append (a b x y : List Nat) (h : a.length = b.length) :
    lexLtB (a ++ x) (b ++ y) = (lexLtB a b || (decide (a = b) && lexLtB x y)) := by
  induction a generalizing b with
  | nil =>
    cases b with
    | nil => simp [lexLtB]
    | cons q qs => simp at h
  | cons p ps ih =>
    cases b with
    | nil => simp at h
    | cons q qs =>
      simp only [List.length_cons, Nat.add_right_cancel_iff] at h
      simp only [List.cons_append, lexLtB]
      rcases Nat.lt_trichotomy p q with hlt | heq | hgt
      · simp [hlt, Nat.ne_of_lt hlt]
      · subst heq
        simp [lt_irrefl, ih qs h]
      · simp [hgt, Nat.lt_asymm hgt, (Nat.ne_of_lt hgt).symm]

theorem lexLtB_cons_same (c : Nat) (r1 r2 : List Nat) :
    lexLtB (c :: r1) (c :: r2) = lexLtB r1 r2 := by
  simp [lexLtB]

theorem pad2_lt (a b : Nat) (ha : a < 100) (hb : b < 100) :
    lexLtB (pad2 a) (pad2 b) = decide (a < b) := by
  simp only [pad2, lexLtB]
  split
  · rename_i h1
    rw [eq_comm, decide_eq_true_iff]
    omega
  · split
    · rename_i h1 h2
      rw [eq_comm, decide_eq_false_iff_not]
      omega
    · split
      · rename_i h1 h2 h3
        rw [eq_comm, decide_eq_true_iff]
        omega
      · split
        · rename_i h1 h2 h3 h4
          rw [eq_comm, decide_eq_false_iff_not]
          omega
        · rename_i h1 h2 h3 h4
          rw [eq_comm, decide_eq_false_iff_not]
          omega

theorem pad2_inj (a b : Nat) (ha : a < 100) (hb : b < 100) :
    pad2 a = pad2 b ↔ a = b := by
  constructor
  · intro h
    simp only [pad2, List.cons.injEq, and_true] at h
    omega
  · intro h
    rw [h]

theorem pad4_split (n : Nat) : pad4 n = pad2 (n / 100) ++ pad2 (n % 100) := by
  simp only [pad4, pad2, List.cons_append, List.nil_append, List.cons.injEq, and_true]
  refine ⟨by omega, trivial, by omega, by omega⟩

theorem pad4_lt (a b : Nat) (ha : a < 10000) (hb : b < 10000) :
    lexLtB (pad4 a) (pad4 b) = decide (a < b) := by
  rw [pad4_split a, pad4_split b, lexLtB_append _ _ _ _ (by simp [pad2])]
  rw [pad2_lt _ _ (by omega) (by omega), pad2_lt _ _ (by omega) (by omega)]
  rw [show decide (pad2 (a / 100) = pad2 (b / 100)) = decide (a / 100 = b / 100) from
    decide_eq_decide.mpr (pad2_inj _ _ (by omega) (by omega))]
  rcases Nat.lt_trichotomy (a / 100) (b / 100) with hlt | heq | hgt
  · have hab : a < b := by omega
    simp [hlt, Nat.ne_of_lt hlt, hab]
  · have : (a < b) ↔ (a % 100 < b % 100) := by omega
    simp [heq, this]
  · have hab : ¬ a < b := by omega
    simp [Nat.lt_asymm hgt, (Nat.ne_of_lt hgt).symm, hab]

theorem pad4_inj (a b : Nat) (ha : a < 10000) (hb : b < 10000) :
    pad4 a = pad4 b ↔ a = b := by
  constructor
  · intro h
    simp only [pad4, List.cons.injEq, and_true] at h
    omega
  · intro h
    rw [h]

/-- C8: the timestamp embedded in a DirectoryArchive backup filename
(format `%Y-%m-%d_%H-%M-%S`) is monotone with respect to chronological
order: for any two datetimes with four-digit years, `t1` precedes `t2`
chronologically exactly when the formatted string of `t1` precedes that
of `t2` lexically, so string comparison of backup filenames agrees with
chronological order. -/
theorem claim8_timestamp_monotone (t1 t2 : DT) (h1 : t1.Valid) (h2 : t2.Valid) :
    lexLtB (fmtCodes t1) (fmtCodes t2) = chronLtB t1 t2 := by
  obtain ⟨hy1, hy1b, hm1, hm1b, hd1, hd1b, hh1, hmi1, hs1⟩ := h1
  obtain ⟨hy2, hy2b, hm2, hm2b, hd2, hd2b, hh2, hmi2, hs2⟩ := h2
  simp only [fmtCodes]
  rw [lexLtB_append _ _ _ _ (by simp [pad4]), lexLtB_cons_same,
    lexLtB_append _ _ _ _ (by simp [pad2]), lexLtB_cons_same,
    lexLtB_append _ _ _ _ (by simp [pad2]), lexLtB_cons_same,
    lexLtB_append _ _ _ _ (by simp [pad2]), lexLtB_cons_same,
    lexLtB_append _ _ _ _ (by simp [pad2]), lexLtB_cons_same]
  rw [pad4_lt _ _ (by omega) (by omega),
    pad2_lt _ _ (by omega) (by omega), pad2_lt _ _ (by omega) (by omega),
    pad2_lt _ _ (by omega) (by omega), pad2_lt _ _ (by omega) (by omega),
    pad2_lt _ _ (by omega) (by omega)]
  rw [show decide (pad4 t1.year = pad4 t2.year) = decide (t1.year = t2.year) from
    decide_eq_decide.mpr (pad4_inj _ _ (by omega) (by omega))]
  rw [show decide (pad2 t1.month = pad2 t2.month) = decide (t1.month = t2.month) from
    decide_eq_decide.mpr (pad2_inj _ _ (by omega) (by omega))]
  rw [show decide (pad2 t1.day = pad2 t2.day) = decide (t1.day = t2.day) from
    decide_eq_decide.mpr (pad2_inj _ _ (by omega) (by omega))]
  rw [show decide (pad2 t1.hour = pad2 t2.hour) = decide (t1.hour = t2.hour) from
    decide_eq_decide.mpr (pad2_inj _ _ (by omega) (by omega))]
  rw [show decide (pad2 t1.minute = pad2 t2.minute) = decide (t1.minute = t2.minute) from
    decide_eq_decide.mpr (pad2_inj _ _ (by omega) (by omega))]
  rfl

theorem claim8_witness :
    DT.Valid ⟨2024, 3, 5, 10, 20, 30⟩ ∧ DT.Valid ⟨2024, 3, 6, 9, 0, 0⟩ ∧
      lexLtB (fmtCodes ⟨2024, 3, 5, 10, 20, 30⟩) (fmtCodes ⟨2024, 3, 6, 9, 0, 0⟩) =
        chronLtB ⟨2024, 3, 5, 10, 20, 30⟩ ⟨2024, 3, 6, 9, 0, 0⟩ :=
  ⟨by decide, by decide,
    claim8_timestamp_monotone ⟨2024, 3, 5, 10, 20, 30⟩ ⟨2024, 3, 6, 9, 0, 0⟩
      (by decide) (by decide)⟩

/-! ## String helper lemmas -/

theorem pyStartsWith_append (p r : String) : pyStartsWith (p ++ r) p = true := by
  simp only [pyStartsWith, String.data_append]
  exact List.isPrefixOf_iff_prefix.mpr (List.prefix_append _ _)

theorem pyEndsWith_append (p r : String) : pyEndsWith (p ++ r) r = true := by
  simp only [pyEndsWith, String.data_append]
  exact List.isSuffixOf_iff_suffix.mpr (List.suffix_append _ _)

/-! ## Claim C7 -/

/-- C7: given an empty remote folder listing, remote retention
(`clean_drive_folder`) performs zero delete calls — the only event is
the listing itself — and returns the `noFiles` sentinel outcome
normally, not an error. -/
theorem claim7_empty_remote (env : Env) (folderId : String)
    (hlist : env.listOk = true) (hempty : remoteFiles env folderId = []) :
    clean_drive_folder env folderId = ([Ev.driveList folderId], CleanOutcome.noFiles) := by
  have hs : remoteSorted env folderId = [] := by
    rw [remoteSorted, hempty]
    rfl
  simp [clean_drive_folder, hlist, hs]

theorem claim7_witness :
    clean_drive_folder envOk gitlabFolderId =
      ([Ev.driveList gitlabFolderId], CleanOutcome.noFiles) :=
  claim7_empty_remote envOk gitlabFolderId rfl (by decide)

/-! ## Claim C10 -/

/-- C10: in `upload_to_google_drive`, remote pruning runs only after the
upload has completed successfully — if credential loading, service
construction, or the upload itself fails, the function raises and no
remote delete call is issued. -/
theorem claim10_no_delete_on_failed_upload (env : Env) (filePath folderId : String)
    (h : env.credOk = false ∨ env.uploadOk = false) :
    (∃ e, (upload_to_google_drive env filePath folderId).2 = Except.error e) ∧
      ∀ i, Ev.driveDelete i ∉ (upload_to_google_drive env filePath folderId).1 := by
  rcases h with hc | hu
  · refine ⟨⟨BErr.credFailed, ?_⟩, ?_⟩ <;> simp [upload_to_google_drive, hc]
  · by_cases hcr : env.credOk
    · refine ⟨⟨BErr.uploadFailed, ?_⟩, ?_⟩ <;> simp [upload_to_google_drive, hcr, hu]
    · refine ⟨⟨BErr.credFailed, ?_⟩, ?_⟩ <;>
        simp [upload_to_google_drive, Bool.of_not_eq_true hcr]

theorem claim10_witness :
    (∃ e, (upload_to_google_drive envNoUpload "/tmp/f.tar" jenkinsFolderId).2 =
        Except.error e) ∧
      ∀ i, Ev.driveDelete i ∉ (upload_to_google_drive envNoUpload "/tmp/f.tar" jenkinsFolderId).1 :=
  claim10_no_delete_on_failed_upload envNoUpload "/tmp/f.tar" jenkinsFolderId (Or.inr rfl)

/-! ## Claim C3 -/

/-- C3: retention-step failures (a failed local delete of a non-latest
file, a failed remote delete, a failed remote listing after a
successful upload) never propagate: whatever the values of the
retention oracles `rmOk`, `listOk` and `driveDeleteOk`, once the
backup command, the credentials and the upload succeed, the operation
returns the latest artifact and no exception surfaces. -/
theorem claim3_retention_nonfatal (env : Env) (latest : LFile) (olds : List LFile)
    (hcmd : env.gitlabCmdExit = 0) (hs : gitlabSorted env = latest :: olds)
    (hcred : env.credOk = true) (hup : env.uploadOk = true) :
    (create_gitlab_backup env).2 = Except.ok (gitlabPath latest) := by
  simp [create_gitlab_backup, hcmd, hs, upload_to_google_drive, hcred, hup]

theorem claim3_witness :
    (create_gitlab_backup envOk).2 = Except.ok (gitlabPath ⟨"a_gitlab_backup.tar", 2⟩) :=
  claim3_retention_nonfatal envOk ⟨"a_gitlab_backup.tar", 2⟩ [⟨"b_gitlab_backup.tar", 1⟩]
    rfl (by decide) rfl rfl

/-! ## Claim C1 -/

/-- C1 counterexample: with the external GitLab backup command exiting 1
(environment `envFail`), the whole run raises, the only event of the
whole run is the GitLab command spawn — in particular the sibling
Jenkins job never starts (its first action would be the
`sudo chmod 755` spawn), contradicting the claim that execution
proceeds to the next job. -/
theorem claim1_counterexample :
    (main envFail).2 = Except.error (BErr.cmdFailed 1) ∧
      (main envFail).1 = [Ev.spawn gitlabCreateCmd] ∧
      Ev.spawn (chmodDirCmd "jenkins") ∉ (main envFail).1 := by
  decide

/-- C1 (amended): when the external backup command of the GitLab job
exits non-zero, no upload is attempted for that job, but the failure is
re-raised by `run_backup` and `main` has no handler, so the run aborts
and the sibling Jenkins job does not run: the only event of the whole
run is the GitLab command spawn. -/
theorem claim1_no_isolation (env : Env) (h : env.gitlabCmdExit ≠ 0) :
    main env = ([Ev.spawn gitlabCreateCmd], Except.error (BErr.cmdFailed env.gitlabCmdExit)) ∧
      (∀ p fid, Ev.uploadAttempt p fid ∉ (main env).1) ∧
      ∀ cmd, Ev.spawn cmd ∈ (main env).1 → cmd = gitlabCreateCmd := by
  have hrb : run_backup env "gitlab" "gitlab" none =
      ([Ev.spawn gitlabCreateCmd], Except.error (BErr.cmdFailed env.gitlabCmdExit)) := by
    simp [run_backup, create_gitlab_backup, h]
  have hm : main env =
      ([Ev.spawn gitlabCreateCmd], Except.error (BErr.cmdFailed env.gitlabCmdExit)) := by
    simp [main, hrb]
  refine ⟨hm, ?_, ?_⟩
  · intro p fid
    simp [hm]
  · intro cmd hcmd
    rw [hm] at hcmd
    simpa using hcmd

theorem claim1_witness :
    main envFail =
      ([Ev.spawn gitlabCreateCmd], Except.error (BErr.cmdFailed envFail.gitlabCmdExit)) :=
  (claim1_no_isolation envFail (by decide)).1

/-! ## Claim C4 -/

/-- C4: for every non-empty remote listing (with distinct object ids),
`clean_drive_folder` sorts the objects by `createdTime` descending with
ties broken by the listing's original order (the sorted list is a
permutation of the listing, pairwise descending, and filtering either
list to any fixed `createdTime` value yields the same sublist in
listing order), issues exactly `len(listing) - 1` delete calls — one
per object of the sorted tail — and the most-recent object (the first
after sorting) is never a delete target. -/
theorem claim4_remote_retention (env : Env) (folderId : String)
    (hlist : env.listOk = true) (hne : remoteFiles env folderId ≠ [])
    (hids : ((remoteFiles env folderId).map RObj.id).Nodup) :
    (remoteSorted env folderId).Perm (remoteFiles env folderId) ∧
      (remoteSorted env folderId).Pairwise (fun a b => b.createdTime ≤ a.createdTime) ∧
      (∀ k, (remoteSorted env folderId).filter (fun f => decide (f.createdTime = k)) =
        (remoteFiles env folderId).filter (fun f => decide (f.createdTime = k))) ∧
      (clean_drive_folder env folderId).1 =
        Ev.driveList folderId ::
          (remoteSorted env folderId).tail.map (fun f => Ev.driveDelete f.id) ∧
      ((remoteSorted env folderId).tail.map (fun f => Ev.driveDelete f.id)).length =
        (remoteFiles env folderId).length - 1 ∧
      ∀ kept olds, remoteSorted env folderId = kept :: olds →
        Ev.driveDelete kept.id ∉ (clean_drive_folder env folderId).1 := by
  have hperm : (remoteSorted env folderId).Perm (remoteFiles env folderId) :=
    sortDescBy_perm _ _
  have hlen : (remoteSorted env folderId).length = (remoteFiles env folderId).length :=
    hperm.length_eq
  obtain ⟨kept, olds, hsort⟩ :
      ∃ kept olds, remoteSorted env folderId = kept :: olds := by
    cases hs : remoteSorted env folderId with
    | nil =>
      rw [hs] at hperm
      exact absurd hperm.symm.eq_nil hne
    | cons kept olds => exact ⟨kept, olds, rfl⟩
  have hev : (clean_drive_folder env folderId).1 =
      Ev.driveList folderId :: olds.map (fun f => Ev.driveDelete f.id) := by
    simp [clean_drive_folder, hlist, hsort]
  refine ⟨hperm, sortDescBy_pairwise _ _, fun k => sortDescBy_filter _ _ _, ?_, ?_, ?_⟩
  · rw [hev, hsort]
    rfl
  · rw [hsort] at hlen
    simp only [hsort, List.tail_cons, List.length_map]
    simp only [List.length_cons] at hlen
    omega
  · intro kept2 olds2 hs2
    rw [hsort] at hs2
    injection hs2 with hk ho
    subst hk
    subst ho
    have hmperm : ((remoteSorted env folderId).map RObj.id).Perm
        ((remoteFiles env folderId).map RObj.id) := hperm.map _
    rw [hsort] at hmperm
    have hnd : (kept.id :: olds.map RObj.id).Nodup := by
      simpa using hmperm.nodup_iff.mpr hids
    have hkid : kept.id ∉ olds.map RObj.id := (List.nodup_cons.mp hnd).1
    rw [hev]
    intro hmem
    rcases List.mem_cons.mp hmem with habs | hmem2
    · exact Ev.noConfusion habs
    · rcases List.mem_map.mp hmem2 with ⟨f, hf, hfe⟩
      injection hfe with hfid
      exact hkid (hfid ▸ List.mem_map_of_mem RObj.id hf)

theorem claim4_witness :
    ((remoteSorted envOk jenkinsFolderId).tail.map (fun f => Ev.driveDelete f.id)).length =
      (remoteFiles envOk jenkinsFolderId).length - 1 :=
  (claim4_remote_retention envOk jenkinsFolderId rfl (by decide) (by decide)).2.2.2.2.1

/-! ## Claim C5 -/

/-- C5 counterexample: in `envTie` the two matching GitLab backups have
equal ctimes and the lexically smaller path is listed first.  The claim
says the lexically-greatest path (`.../b_gitlab_backup.tar`, as
`specLocalWinner` — the spec's words rendered directly — confirms)
should win the tie and every *other* file should be deleted; the code
instead returns `.../a_gitlab_backup.tar` (the first listed) and issues
`sudo rm` for `.../b_gitlab_backup.tar`, the very file the claim says
must be kept. -/
theorem claim5_counterexample :
    (create_gitlab_backup envTie).2 =
        Except.ok "/var/opt/gitlab/backups/a_gitlab_backup.tar" ∧
      specLocalWinner gitlabBackupDir (gitlabCandidates envTie) =
        some ⟨"b_gitlab_backup.tar", 5⟩ ∧
      gitlabPath ⟨"b_gitlab_backup.tar", 5⟩ = "/var/opt/gitlab/backups/b_gitlab_backup.tar" ∧
      Ev.spawn ["sudo", "rm", "/var/opt/gitlab/backups/b_gitlab_backup.tar"] ∈
        (create_gitlab_backup envTie).1 ∧
      "/var/opt/gitlab/backups/a_gitlab_backup.tar" ≠
        "/var/opt/gitlab/backups/b_gitlab_backup.tar" := by
  decide

/-- C5 (amended): for every non-empty set of local files matching the
GitLab job's pattern, local retention selects as winner the file with
the maximum creation timestamp, breaking timestamp ties by the
directory listing's original order (the earliest-listed file among
those with maximal ctime wins — not the lexically-greatest path),
issues a delete for every other matching file, returns the winner's
path, and when every delete succeeds exactly that one matching file is
left. -/
theorem claim5_local_retention (env : Env) (latest : LFile) (olds : List LFile)
    (hcmd : env.gitlabCmdExit = 0) (hcred : env.credOk = true) (hup : env.uploadOk = true)
    (hs : gitlabSorted env = latest :: olds)
    (hnames : ((gitlabCandidates env).map LFile.name).Nodup)
    (hrm : ∀ p, env.rmOk p = true) :
    (create_gitlab_backup env).2 = Except.ok (gitlabPath latest) ∧
      (∀ f ∈ gitlabCandidates env, f.ctime ≤ latest.ctime) ∧
      ((gitlabCandidates env).filter (fun f => decide (f.ctime = latest.ctime))).head? =
        some latest ∧
      (∀ f ∈ olds, Ev.spawn ["sudo", "rm", gitlabPath f] ∈ (create_gitlab_backup env).1) ∧
      (localAfterGitlab env).filter (fun f => pyEndsWith f.name "_gitlab_backup.tar") =
        [latest] := by
  have hnd : (gitlabCandidates env).Nodup := hnames.of_map
  have hperm : (gitlabCandidates env).Perm (latest :: olds) := by
    have h := (sortDescBy_perm (fun f : LFile => f.ctime) (gitlabCandidates env)).symm
    rwa [show sortDescBy (fun f : LFile => f.ctime) (gitlabCandidates env) =
      gitlabSorted env from rfl, hs] at h
  have hev : (create_gitlab_backup env).1 =
      Ev.spawn gitlabCreateCmd ::
        (olds.map (fun b => Ev.spawn ["sudo", "rm", gitlabPath b]) ++
          (upload_to_google_drive env (gitlabPath latest) gitlabFolderId).1) := by
    simp [create_gitlab_backup, hcmd, hs]
  refine ⟨?_, ?_, ?_, ?_, ?_⟩
  · simp [create_gitlab_backup, hcmd, hs, upload_to_google_drive, hcred, hup]
  · exact sortDescBy_head_max _ _ _ _ hs
  · exact sortDescBy_head_first _ _ _ _ hs
  · intro f hf
    rw [hev]
    exact List.mem_cons_of_mem _
      (List.mem_append_left _ (List.mem_map_of_mem _ hf))
  · have h1 : localAfterGitlab env =
        env.gitlabListing.filter (fun f => !decide (f ∈ olds)) := by
      unfold localAfterGitlab
      rw [hs]
      exact List.filter_congr (fun f _ => by simp [hrm])
    rw [h1, List.filter_filter]
    have h2 : env.gitlabListing.filter
          (fun f => pyEndsWith f.name "_gitlab_backup.tar" && !decide (f ∈ olds)) =
        env.gitlabListing.filter
          (fun f => !decide (f ∈ olds) && pyEndsWith f.name "_gitlab_backup.tar") :=
      List.filter_congr (fun f _ => Bool.and_comm _ _)
    rw [h2, ← List.filter_filter]
    exact filter_not_mem_eq_singleton (gitlabCandidates env) latest olds hperm hnd

theorem claim5_witness :
    (localAfterGitlab envOk).filter (fun f => pyEndsWith f.name "_gitlab_backup.tar") =
      [⟨"a_gitlab_backup.tar", 2⟩] :=
  (claim5_local_retention envOk ⟨"a_gitlab_backup.tar", 2⟩ [⟨"b_gitlab_backup.tar", 1⟩]
    rfl rfl rfl (by decide) (by decide) (fun _ => rfl)).2.2.2.2

/-! ## Claim C6 -/

/-- C6 counterexample: with no configured source directory existing
(`envNoSrc`), `create_directory_backup` does raise the configuration
error before the archiving tool and before any upload — but only after
spawning the `sudo chmod 755` subprocess on the backup directory, so
the claim that no subprocess is spawned before the configuration error
is false. -/
theorem claim6_counterexample :
    create_directory_backup envNoSrc "jenkins" ["/var/lib/jenkins"] =
      ([Ev.spawn ["sudo", "chmod", "755", "/var/backups/jenkins"]],
       Except.error (BErr.fileNotFound "No valid directories found for jenkins backup.")) ∧
      (create_directory_backup envNoSrc "jenkins" ["/var/lib/jenkins"]).1 ≠ [] := by
  decide

/-- C6 (amended): an unknown method string and an empty or missing
source-path list fail in `run_backup` before any subprocess is spawned
and before any upload; a DirectoryArchive job whose source paths filter
down to no existing directories raises the configuration error before
the archiving tool is invoked and before any upload is attempted, but
only after the `sudo chmod 755` subprocess on the backup directory has
already run. -/
theorem claim6_failfast (env : Env) (backupName method : String)
    (directoriesOpt : Option (List String)) (directories : List String) :
    (method ≠ "gitlab" → method ≠ "directory" →
      run_backup env backupName method directoriesOpt =
        ([], Except.error
          (BErr.valueError "Invalid backup method. Use 'gitlab' or 'directory'."))) ∧
      (run_backup env backupName "directory" none =
        ([], Except.error
          (BErr.valueError "No directories provided for directory backup."))) ∧
      (run_backup env backupName "directory" (some []) =
        ([], Except.error
          (BErr.valueError "No directories provided for directory backup."))) ∧
      (env.chmodDirExit = 0 → directories.filter env.dirExists = [] →
        create_directory_backup env backupName directories =
          ([Ev.spawn (chmodDirCmd backupName)],
           Except.error (BErr.fileNotFound
             ("No valid directories found for " ++ backupName ++ " backup.")))) := by
  refine ⟨?_, ?_, ?_, ?_⟩
  · intro hg hd
    simp [run_backup, hg, hd]
  · simp [run_backup]
  · simp [run_backup]
  · intro hch hfil
    simp [create_directory_backup, hch, hfil]

theorem claim6_witness :
    create_directory_backup envNoSrc "jenkins" jenkinsDirectories =
      ([Ev.spawn (chmodDirCmd "jenkins")],
       Except.error (BErr.fileNotFound "No valid directories found for jenkins backup.")) :=
  (claim6_failfast envNoSrc "jenkins" "directory" none jenkinsDirectories).2.2.2
    rfl (by decide)

/-! ## Claim C2 -/

/-- With the listing successful, every remote delete successful and the
folder's object ids distinct, `clean_drive_folder` leaves at most one
object in the folder. -/
theorem remoteAfterClean_le_one (env : Env) (folderId : String)
    (hlist : env.listOk = true)
    (hids : ((remoteFiles env folderId).map RObj.id).Nodup)
    (hdel : ∀ i, env.driveDeleteOk i = true) :
    (remoteAfterClean env folderId).length ≤ 1 := by
  have hndr : (remoteFiles env folderId).Nodup := hids.of_map
  cases hsr : remoteSorted env folderId with
  | nil =>
    have hperm := sortDescBy_perm (fun f : RObj => f.createdTime) (remoteFiles env folderId)
    rw [show sortDescBy (fun f : RObj => f.createdTime) (remoteFiles env folderId) =
      remoteSorted env folderId from rfl, hsr] at hperm
    have hfe : remoteFiles env folderId = [] := hperm.symm.eq_nil
    simp [remoteAfterClean, hfe]
  | cons kept kolds =>
    have hperm2 : (remoteFiles env folderId).Perm (kept :: kolds) := by
      have h := (sortDescBy_perm (fun f : RObj => f.createdTime)
        (remoteFiles env folderId)).symm
      rwa [show sortDescBy (fun f : RObj => f.createdTime) (remoteFiles env folderId) =
        remoteSorted env folderId from rfl, hsr] at h
    have h1 : remoteAfterClean env folderId =
        (remoteFiles env folderId).filter (fun f => !decide (f ∈ kolds)) := by
      unfold remoteAfterClean
      rw [remoteDeleteTargets, if_pos hlist, hsr]
      exact List.filter_congr (fun f _ => by simp [hdel])
    rw [h1, filter_not_mem_eq_singleton (remoteFiles env folderId) kept kolds hperm2 hndr]
    simp

/-- Whatever remote deletes fail, the head of the sorted remote listing
(an object of maximal `createdTime`) is never a delete target and
survives `clean_drive_folder`. -/
theorem remoteAfterClean_keeps_head (env : Env) (folderId : String)
    (hlist : env.listOk = true)
    (hids : ((remoteFiles env folderId).map RObj.id).Nodup)
    (kept : RObj) (kolds : List RObj)
    (hsr : remoteSorted env folderId = kept :: kolds) :
    kept ∈ remoteAfterClean env folderId ∧
      ∀ f ∈ remoteFiles env folderId, f.createdTime ≤ kept.createdTime := by
  have hndr : (remoteFiles env folderId).Nodup := hids.of_map
  have hperm2 : (remoteFiles env folderId).Perm (kept :: kolds) := by
    have h := (sortDescBy_perm (fun f : RObj => f.createdTime)
      (remoteFiles env folderId)).symm
    rwa [show sortDescBy (fun f : RObj => f.createdTime) (remoteFiles env folderId) =
      remoteSorted env folderId from rfl, hsr] at h
  have hkm : kept ∈ remoteFiles env folderId :=
    hperm2.mem_iff.mpr (List.mem_cons_self kept kolds)
  have hknotin : kept ∉ kolds := by
    have hndlo : (kept :: kolds).Nodup := hperm2.nodup_iff.mp hndr
    exact (List.nodup_cons.mp hndlo).1
  refine ⟨List.mem_filter.mpr ⟨hkm, ?_⟩, sortDescBy_head_max _ _ _ _ hsr⟩
  simp [remoteDeleteTargets, hlist, hsr, hknotin]

/-- After pruning everything in `olds`, the files of `listing` matching
`pat` reduce to the single winner `latest`, provided the matching files
are duplicate-free and a permutation of `latest :: olds`. -/
theorem filter_pattern_after_prune (listing : List LFile) (pat : LFile → Bool)
    (latest : LFile) (olds : List LFile)
    (hperm : (listing.filter pat).Perm (latest :: olds))
    (hnd : (listing.filter pat).Nodup) :
    (listing.filter (fun f => !decide (f ∈ olds))).filter pat = [latest] := by
  rw [List.filter_filter]
  have h2 : listing.filter (fun f => pat f && !decide (f ∈ olds)) =
      listing.filter (fun f => !decide (f ∈ olds) && pat f) :=
    List.filter_congr (fun f _ => Bool.and_comm _ _)
  rw [h2, ← List.filter_filter]
  exact filter_not_mem_eq_singleton (listing.filter pat) latest olds hperm hnd

/-- C2: for each of the two jobs (the DirectoryArchive job and the
GitLab job), after a successful run (external steps and upload
succeed), if every local delete succeeds the job's local backup
directory holds at most one file matching the job's naming pattern,
and if the listing and every remote delete succeed the job's remote
folder holds at most one object; and whatever deletes fail, the
most-recent artifact of each domain (the head of the respective
descending sort, which has maximal creation time) is never among the
deletion targets and always survives. -/
theorem claim2_retention_invariant (env : Env) (backupName : String)
    (directories : List String) (latest : LFile) (olds : List LFile)
    (glatest : LFile) (golds : List LFile)
    (hch : env.chmodDirExit = 0) (htar : env.tarExit = 0) (hchf : env.chmodFileExit = 0)
    (hex : directories.filter env.dirExists ≠ [])
    (hcred : env.credOk = true) (hup : env.uploadOk = true) (hlist : env.listOk = true)
    (hs : dirSorted env backupName = latest :: olds)
    (hnames : ((env.dirListing backupName).map LFile.name).Nodup)
    (hids : ((remoteFiles env jenkinsFolderId).map RObj.id).Nodup)
    (hgcmd : env.gitlabCmdExit = 0)
    (hgs : gitlabSorted env = glatest :: golds)
    (hgnames : (env.gitlabListing.map LFile.name).Nodup)
    (hgids : ((remoteFiles env gitlabFolderId).map RObj.id).Nodup) :
    (create_directory_backup env backupName directories).2 =
        Except.ok (backupFileFor env backupName) ∧
      ((∀ p, env.rmOk p = true) →
        ((localAfterDir env backupName).filter
          (fun f => pyStartsWith f.name (backupName ++ "_backup_") &&
            pyEndsWith f.name ".tar.gz")).length ≤ 1) ∧
      ((∀ i, env.driveDeleteOk i = true) →
        (remoteAfterClean env jenkinsFolderId).length ≤ 1) ∧
      latest ∈ localAfterDir env backupName ∧
      (∀ f ∈ dirCandidates env backupName, f.ctime ≤ latest.ctime) ∧
      (∀ kept kolds, remoteSorted env jenkinsFolderId = kept :: kolds →
        kept ∈ remoteAfterClean env jenkinsFolderId ∧
          ∀ f ∈ remoteFiles env jenkinsFolderId, f.createdTime ≤ kept.createdTime) ∧
      (create_gitlab_backup env).2 = Except.ok (gitlabPath glatest) ∧
      ((∀ p, env.rmOk p = true) →
        ((localAfterGitlab env).filter
          (fun f => pyEndsWith f.name "_gitlab_backup.tar")).length ≤ 1) ∧
      ((∀ i, env.driveDeleteOk i = true) →
        (remoteAfterClean env gitlabFolderId).length ≤ 1) ∧
      glatest ∈ localAfterGitlab env ∧
      (∀ f ∈ gitlabCandidates env, f.ctime ≤ glatest.ctime) ∧
      ∀ kept kolds, remoteSorted env gitlabFolderId = kept :: kolds →
        kept ∈ remoteAfterClean env gitlabFolderId ∧
          ∀ f ∈ remoteFiles env gitlabFolderId, f.createdTime ≤ kept.createdTime := by
  have hndl : (env.dirListing backupName).Nodup := hnames.of_map
  have hndc : (dirCandidates env backupName).Nodup := hndl.filter _
  have hpermc : (dirCandidates env backupName).Perm (latest :: olds) := by
    have h := (sortDescBy_perm (fun f : LFile => f.ctime) (dirCandidates env backupName)).symm
    rwa [show sortDescBy (fun f : LFile => f.ctime) (dirCandidates env backupName) =
      dirSorted env backupName from rfl, hs] at h
  have hgndl : env.gitlabListing.Nodup := hgnames.of_map
  have hgndc : (gitlabCandidates env).Nodup := hgndl.filter _
  have hgpermc : (gitlabCandidates env).Perm (glatest :: golds) := by
    have h := (sortDescBy_perm (fun f : LFile => f.ctime) (gitlabCandidates env)).symm
    rwa [show sortDescBy (fun f : LFile => f.ctime) (gitlabCandidates env) =
      gitlabSorted env from rfl, hgs] at h
  refine ⟨?_, ?_, ?_, ?_, ?_, ?_, ?_, ?_, ?_, ?_, ?_, ?_⟩
  · cases hfil : directories.filter env.dirExists with
    | nil => exact absurd hfil hex
    | cons d ds =>
      simp [create_directory_backup, hch, htar, hchf, hfil, upload_to_google_drive,
        hcred, hup]
  · intro hrm
    have h1 : localAfterDir env backupName =
        (env.dirListing backupName).filter (fun f => !decide (f ∈ olds)) := by
      unfold localAfterDir
      rw [hs]
      exact List.filter_congr (fun f _ => by simp [hrm])
    have h3 := filter_pattern_after_prune (env.dirListing backupName)
      (fun f => pyStartsWith f.name (backupName ++ "_backup_") &&
        pyEndsWith f.name ".tar.gz") latest olds hpermc hndc
    rw [h1, h3]
    simp
  · exact remoteAfterClean_le_one env jenkinsFolderId hlist hids
  · have hlm : latest ∈ dirCandidates env backupName :=
      hpermc.mem_iff.mpr (List.mem_cons_self latest olds)
    have hnotin : latest ∉ olds := by
      have hndlo : (latest :: olds).Nodup := hpermc.nodup_iff.mp hndc
      exact (List.nodup_cons.mp hndlo).1
    refine List.mem_filter.mpr ⟨List.mem_of_mem_filter hlm, ?_⟩
    simp [hs, hnotin]
  · exact sortDescBy_head_max _ _ _ _ hs
  · intro kept kolds hsr
    exact remoteAfterClean_keeps_head env jenkinsFolderId hlist hids kept kolds hsr
  · simp [create_gitlab_backup, hgcmd, hgs, upload_to_google_drive, hcred, hup]
  · intro hrm
    have h1 : localAfterGitlab env =
        env.gitlabListing.filter (fun f => !decide (f ∈ golds)) := by
      unfold localAfterGitlab
      rw [hgs]
      exact List.filter_congr (fun f _ => by simp [hrm])
    have h3 := filter_pattern_after_prune env.gitlabListing
      (fun f => pyEndsWith f.name "_gitlab_backup.tar") glatest golds hgpermc hgndc
    rw [h1, h3]
    simp
  · exact remoteAfterClean_le_one env gitlabFolderId hlist hgids
  · have hlm : glatest ∈ gitlabCandidates env :=
      hgpermc.mem_iff.mpr (List.mem_cons_self glatest golds)
    have hnotin : glatest ∉ golds := by
      have hndlo : (glatest :: golds).Nodup := hgpermc.nodup_iff.mp hgndc
      exact (List.nodup_cons.mp hndlo).1
    refine List.mem_filter.mpr ⟨List.mem_of_mem_filter hlm, ?_⟩
    simp [hgs, hnotin]
  · exact sortDescBy_head_max _ _ _ _ hgs
  · intro kept kolds hsr
    exact remoteAfterClean_keeps_head env gitlabFolderId hlist hgids kept kolds hsr

theorem claim2_witness :
    (remoteAfterClean envOk jenkinsFolderId).length ≤ 1 ∧
      (remoteAfterClean envOk gitlabFolderId).length ≤ 1 := by
  have h := claim2_retention_invariant envOk "jenkins" jenkinsDirectories
    ⟨"jenkins_backup_2024-03-05_10-20-30.tar.gz", 9⟩
    [⟨"jenkins_backup_2024-03-04_10-20-30.tar.gz", 4⟩]
    ⟨"a_gitlab_backup.tar", 2⟩ [⟨"b_gitlab_backup.tar", 1⟩]
    rfl rfl rfl (by decide) rfl rfl rfl (by decide) (by decide) (by decide)
    rfl (by decide) (by decide) (by decide)
  exact ⟨h.2.2.1 (fun _ => rfl), h.2.2.2.2.2.2.2.2.1 (fun _ => rfl)⟩

/-! ## Claim C9 -/

/-- C9: in `create_directory_backup`, when the run reaches the pruning
pass, the freshly created archive (present in the directory listing
under the name `<name>_backup_<timestamp>.tar.gz` and strictly newer
than every other listed file) always matches the pruning predicate of
the same call, so it is among the retention candidates; being the
newest candidate it is never among that pass's deletion targets, and
the path the call returns is exactly the path of the file just
created. -/
theorem claim9_fresh_archive (env : Env) (backupName : String) (directories : List String)
    (fresh : LFile)
    (hch : env.chmodDirExit = 0) (htar : env.tarExit = 0) (hchf : env.chmodFileExit = 0)
    (hex : directories.filter env.dirExists ≠ [])
    (hcred : env.credOk = true) (hup : env.uploadOk = true)
    (hmem : fresh ∈ env.dirListing backupName)
    (hname : fresh.name = backupName ++ "_backup_" ++ env.timestamp ++ ".tar.gz")
    (hnew : ∀ g ∈ env.dirListing backupName, g ≠ fresh → g.ctime < fresh.ctime)
    (hnames : ((env.dirListing backupName).map LFile.name).Nodup) :
    fresh ∈ dirCandidates env backupName ∧
      fresh ∉ (dirSorted env backupName).tail ∧
      (create_directory_backup env backupName directories).2 =
        Except.ok (backupFileFor env backupName) ∧
      dirPath backupName fresh = backupFileFor env backupName := by
  have hfc : fresh ∈ dirCandidates env backupName := by
    refine List.mem_filter.mpr ⟨hmem, ?_⟩
    rw [hname]
    have h1 : pyStartsWith (backupName ++ "_backup_" ++ env.timestamp ++ ".tar.gz")
        (backupName ++ "_backup_") = true := by
      rw [String.append_assoc (backupName ++ "_backup_") env.timestamp ".tar.gz"]
      exact pyStartsWith_append _ _
    have h2 : pyEndsWith (backupName ++ "_backup_" ++ env.timestamp ++ ".tar.gz")
        ".tar.gz" = true := pyEndsWith_append _ _
    simp [h1, h2]
  have hndc : (dirCandidates env backupName).Nodup := (hnames.of_map).filter _
  refine ⟨hfc, ?_, ?_, ?_⟩
  · cases hsd : dirSorted env backupName with
    | nil => simp
    | cons h t =>
      have hmax := sortDescBy_head_max (fun f : LFile => f.ctime)
        (dirCandidates env backupName) h t hsd
      have hhc : h ∈ dirCandidates env backupName := by
        rw [← sortDescBy_mem (fun f : LFile => f.ctime)]
        rw [show sortDescBy (fun f : LFile => f.ctime) (dirCandidates env backupName) =
          dirSorted env backupName from rfl, hsd]
        exact List.mem_cons_self h t
      have hhf : h = fresh := by
        by_contra hne2
        have hlt : h.ctime < fresh.ctime := hnew h (List.mem_of_mem_filter hhc) hne2
        have hge : fresh.ctime ≤ h.ctime := hmax fresh hfc
        omega
      have hnds : (h :: t).Nodup := by
        rw [← hsd]
        exact ((sortDescBy_perm (fun f : LFile => f.ctime)
          (dirCandidates env backupName)).nodup_iff).mpr hndc
      have hht : h ∉ t := (List.nodup_cons.mp hnds).1
      rw [List.tail_cons]
      exact hhf ▸ hht
  · cases hfil : directories.filter env.dirExists with
    | nil => exact absurd hfil hex
    | cons d ds =>
      simp [create_directory_backup, hch, htar, hchf, hfil, upload_to_google_drive,
        hcred, hup]
  · simp [dirPath, backupFileFor, hname, String.append_assoc]

theorem claim9_witness :
    (⟨"jenkins_backup_2024-03-05_10-20-30.tar.gz", 9⟩ : LFile) ∉
      (dirSorted envOk "jenkins").tail :=
  (claim9_fresh_archive envOk "jenkins" jenkinsDirectories
    ⟨"jenkins_backup_2024-03-05_10-20-30.tar.gz", 9⟩
    rfl rfl rfl (by decide) rfl rfl (by decide) (by decide) (by decide) (by decide)).2.1

end Backups
